import Mathlib

/-!
# openai-proxy: the request pipeline of `handleRequest`

A shallow embedding of `src/openai-proxy/main.go`.  A Go string (and a byte
slice) is the list of its bytes, written `GoString`; a byte is written as the
character with that code, so the ASCII literals of the source are their own
character lists.  What the handler does to the outside world (the response
writer, the outbound client, the upstream body reader) is passed explicitly:
the calls it makes are recorded in a trace, and what the outside world answers
is read from an environment record.
-/

namespace OpenAIProxy

/-- A Go string or byte slice, as the sequence of its bytes. -/
abbrev GoString := List Char

/-! ## The `strings` functions used by the handler -/

namespace strings

/-- Go's `strings.HasPrefix(s, prefix)`. -/
def HasPrefix (s pre : GoString) : Bool := pre.isPrefixOf s

/-- Go's `strings.TrimPrefix(s, prefix)`: `s` without the leading `prefix` when it
has one, `s` itself otherwise. -/
def TrimPrefix (s pre : GoString) : GoString :=
  if HasPrefix s pre then s.drop pre.length else s

/-- Go's `strings.Replace(s, old, new, 1)`: the leftmost occurrence of `old` in `s`
is replaced by `new`; `s` is returned unchanged when `old` does not occur. -/
def Replace1 (s old new : GoString) : GoString :=
  if HasPrefix s old then new ++ s.drop old.length
  else match s with
    | [] => []
    | c :: t => c :: Replace1 t old new

end strings

/-! ## Path normalisation (main.go, lines 62-64) -/

/-- The first environment marker of main.go line 63. -/
def releaseMarker : GoString := "/release".toList

/-- The second environment marker of main.go line 64. -/
def testMarker : GoString := "/test".toList

/-- Both `strings.Replace` calls of `handleRequest`:
`newPath := strings.Replace(r.URL.Path, "/release", "", 1)` followed by
`newPath = strings.Replace(newPath, "/test", "", 1)`. -/
def Normalize (path : GoString) : GoString :=
  let newPath := strings.Replace1 path releaseMarker []
  strings.Replace1 newPath testMarker []

/-! ## Header maps (`net/textproto`, `net/http`) -/

/-- The function `validHeaderFieldByte` of `net/textproto`: the token characters
of RFC 7230. -/
def validHeaderFieldByte (c : Char) : Bool :=
  c.isAlphanum || "!#$%&'*+-.^_`|~".toList.contains c

/-- The letter-case pass of `canonicalMIMEHeaderKey`: upper case for the first
letter and after each dash, lower case elsewhere. -/
def canonCase : Bool → GoString → GoString
  | _, [] => []
  | upper, c :: t =>
    let c1 := if upper && c.isLower then c.toUpper
      else if !upper && c.isUpper then c.toLower else c
    c1 :: canonCase (c1 == '-') t

/-- The function `canonicalMIMEHeaderKey` of `net/textproto`: a key holding a
byte that is not a token character (a space included) is returned unchanged,
any other key is put in canonical letter case. -/
def canonicalMIMEHeaderKey (a : GoString) : GoString :=
  if a.all validHeaderFieldByte then canonCase true a else a

/-- The loop of `textproto.CanonicalMIMEHeaderKey` over the rest `t` of the key
`s`: it stops at an invalid byte, hands over to `canonicalMIMEHeaderKey` at the
first letter in the wrong case, and returns `s` when it reaches the end. -/
def canonicalScan (s : GoString) : Bool → GoString → GoString
  | _, [] => s
  | upper, c :: t =>
    if !validHeaderFieldByte c then s
    else if upper && c.isLower then canonicalMIMEHeaderKey s
    else if !upper && c.isUpper then canonicalMIMEHeaderKey s
    else canonicalScan s (c == '-') t

/-- The function `textproto.CanonicalMIMEHeaderKey(s)`, which `Header.Get`,
`Header.Add` and `Header.Set` apply to their key. -/
def CanonicalMIMEHeaderKey (s : GoString) : GoString := canonicalScan s true s

/-- A Go `http.Header`, that is a `map[string][]string`: its entries in the
order a `range` loop visits them. -/
abbrev Header := List (GoString × List GoString)

namespace Header

/-- The map read `h[k]`: the values stored under `k`, none when `k` is absent. -/
def values : Header → GoString → List GoString
  | [], _ => []
  | (k1, vs) :: t, k => if k1 = k then vs else values t k

/-- The map write `h[k] = vs`. -/
def store : Header → GoString → List GoString → Header
  | [], k, vs => [(k, vs)]
  | (k1, vs1) :: t, k, vs => if k1 = k then (k, vs) :: t else (k1, vs1) :: store t k vs

/-- The method `Header.Get(key)`: the first value under the canonical form of
`key`, the empty string when there is none. -/
def Get (h : Header) (key : GoString) : GoString :=
  match h.values (CanonicalMIMEHeaderKey key) with
  | [] => []
  | v :: _ => v

/-- The method `Header.Add(key, value)`: appends `value` under the canonical form of `key`. -/
def Add (h : Header) (key value : GoString) : Header :=
  h.store (CanonicalMIMEHeaderKey key) (h.values (CanonicalMIMEHeaderKey key) ++ [value])

/-- The method `Header.Set(key, value)`: the canonical form of `key` gets the single value. -/
def Set (h : Header) (key value : GoString) : Header :=
  h.store (CanonicalMIMEHeaderKey key) [value]

/-- The keys of the map. -/
def keys (h : Header) : List GoString := h.map Prod.fst

/-- A header map as `net/http` hands it over after parsing a message: no key
twice (it is a map) and every key in canonical form. -/
def Parsed (h : Header) : Prop :=
  h.keys.Nodup ∧ ∀ k ∈ h.keys, CanonicalMIMEHeaderKey k = k

instance (h : Header) : Decidable h.Parsed := by
  unfold Parsed; exact inferInstance

/-- The header map a message parser builds from the header lines of a message,
given as pairs of field name and value: each value is appended under the
canonical form of its name. -/
def ofLines (lines : List (GoString × GoString)) : Header :=
  lines.foldl (fun h kv => h.Add kv.1 kv.2) []

/-- The copy loops of main.go (lines 78-82 and 110-114):
`for key, values := range src { for _, value := range values { dst.Add(key, value) } }`. -/
def copyInto (src dst : Header) : Header :=
  src.foldl (fun d kv => kv.2.foldl (fun d1 value => d1.Add kv.1 value) d) dst

end Header

/-! ## Requests, responses and the environment of one call -/

/-- The fields of `r.URL` that matter here. -/
structure URL where
  Path : GoString
  RawQuery : GoString
deriving DecidableEq

/-- The inbound `*http.Request`. -/
structure Request where
  Method : GoString
  URL : URL
  Header : Header
  Body : GoString
  RemoteAddr : GoString
deriving DecidableEq

/-- The outbound request `proxyReq`: what `http.NewRequest` was given, and the
headers added afterwards. -/
structure ProxyRequest where
  Method : GoString
  URL : GoString
  Body : GoString
  Header : Header
deriving DecidableEq

/-- The error value of a `Read`: `io.EOF` itself, or any other error. -/
inductive ReadError where
  | EOF
  | other (msg : GoString)
deriving DecidableEq

/-- The text `err.Error()`. -/
def ReadError.Error : ReadError → GoString
  | .EOF => "EOF".toList
  | .other msg => msg

/-- One `resp.Body.Read(buf)`: the bytes it puts in `buf` (so `n` is their
number) and the error it returns with them. -/
structure ReadResult where
  data : GoString
  err : Option ReadError
deriving DecidableEq

/-- The upstream `*http.Response`; the body is the sequence of results its
`Read` returns, after which every further `Read` returns `(0, io.EOF)`. -/
structure Response where
  StatusCode : Nat
  Header : Header
  Body : List ReadResult
deriving DecidableEq

/-- The `http.Transport` set for local testing (main.go, lines 94-97). -/
structure Transport where
  Proxy : GoString
  InsecureSkipVerify : Bool
deriving DecidableEq

/-- The `http.Client` of main.go, lines 87-98; `Timeout` in seconds. -/
structure Client where
  Timeout : Nat
  Transport : Option Transport
deriving DecidableEq

/-- The value `p` of `handler.NewProxyHandler`, as far as main.go uses it. -/
structure ProxyHandler where
  OpenAIKey : GoString
  CheckToken : GoString → Bool

/-- The outcome of main.go lines 37-45 (`config.Parse`, `repo.NewSQLiteRepo`,
`handler.NewProxyHandler`, all from packages outside main.go): one of the two
errors that end in `log.Fatal`, or the proxy handler `p`. -/
inductive Setup where
  | configError (e : GoString)
  | repoError (e : GoString)
  | ready (p : ProxyHandler)

/-- What the world outside `handleRequest` answers during one call. -/
structure Env where
  /-- The error of `url.Parse(r.URL.String())`, if any. -/
  urlParse : URL → Option GoString
  /-- Main.go lines 37-45. -/
  setup : Setup
  /-- The error of `http.NewRequest(method, url, body)`, if any. -/
  newRequest : GoString → GoString → Option GoString
  /-- The function `os.Getenv`. -/
  Getenv : GoString → GoString
  /-- The result of `client.Do(proxyReq)`. -/
  clientDo : Client → ProxyRequest → Except GoString Response
  /-- The error of the `i`-th `w.Write` (counted from 0), if any. -/
  writeErr : Nat → Option GoString

/-- A call the handler makes on the outside world. -/
inductive Event where
  | newRequest (method url : GoString)
  | clientDo (c : Client) (req : ProxyRequest)
  | writeHeader (code : Nat)
  | write (data : GoString)
  | flush
  | bodyRead
  | bodyClose
deriving DecidableEq

/-- The calls that build or issue the outbound request. -/
def Event.isOutbound : Event → Bool
  | .newRequest _ _ => true
  | .clientDo _ _ => true
  | _ => false

/-- The `http.ResponseWriter` of the call: the header map `w.Header()`, the
status line and header block once committed (`sent` is the header map as it
stood then), the interim status lines sent before that, the body bytes handed
to `Write` so far, also by a `Write` that returned an error, and the number of
`Write` calls. -/
structure ResponseWriter where
  header : Header
  wroteHeader : Bool
  status : Nat
  sent : Header
  interim : List Nat
  body : GoString
  writes : Nat
deriving DecidableEq

/-- The writer of a new call: nothing set, nothing written. -/
def ResponseWriter.fresh : ResponseWriter :=
  { header := [], wroteHeader := false, status := 0, sent := [], interim := [], body := [],
    writes := 0 }

/-- The status line and the header block go out with the first `WriteHeader`,
explicit or implied by a `Write` or `Flush`; later ones change nothing. -/
def ResponseWriter.commit (w : ResponseWriter) (code : Nat) : ResponseWriter :=
  if w.wroteHeader then w
  else { w with wroteHeader := true, status := code, sent := w.header }

/-- The check `checkWriteHeaderCode` of `net/http`: `WriteHeader` panics on a
code below 100 or above 999. -/
def invalidWriteHeaderCode (code : Nat) : Bool := code < 100 || 999 < code

/-- An interim status code: 100 to 199 except 101 Switching Protocols.
`WriteHeader` sends such a status line at once and commits nothing (so
`net/http` since Go 1.19; before that it committed the code like a final one).
The codes main.go writes itself, 401 and 500, are final, and `client.Do` hands
back final statuses only. -/
def interimCode (code : Nat) : Bool := 100 ≤ code && code ≤ 199 && code != 101

/-- The state of one run of `handleRequest`. -/
structure State where
  w : ResponseWriter
  trace : List Event
  logs : List (List GoString)
  fatal : Bool
  panicked : Bool
deriving DecidableEq

namespace State

/-- The state at entry. -/
def fresh : State :=
  { w := ResponseWriter.fresh, trace := [], logs := [], fatal := false, panicked := false }

/-- Records a call in the trace. -/
def emit (st : State) (e : Event) : State := { st with trace := st.trace ++ [e] }

/-- The functions `log.Println` and `log.Printf`, with their operands. -/
def log (st : State) (args : List GoString) : State := { st with logs := st.logs ++ [args] }

/-- The call `log.Fatal(err)`: the message is logged and the process exits. -/
def Fatal (st : State) (e : GoString) : State := { st.log [e] with fatal := true }

/-- The call `w.Header().Set(key, value)`. -/
def headerSet (st : State) (key value : GoString) : State :=
  { st with w := { st.w with header := st.w.header.Set key value } }

/-- The call `w.WriteHeader(code)`.  After the header block went out the call
is superfluous and changes nothing.  Before that, a code below 100 or above
999 makes `net/http` panic, so the handler is left at this call; an interim
code is sent at once as an informational response and commits nothing; any
other code is committed with the header map as it stands. -/
def WriteHeader (st : State) (code : Nat) : State :=
  let st1 := st.emit (.writeHeader code)
  if st.w.wroteHeader then st1
  else if invalidWriteHeaderCode code then { st1 with panicked := true }
  else if interimCode code then
    { st1 with w := { st.w with interim := st.w.interim ++ [code] } }
  else { st1 with w := st.w.commit code }

/-- The call `w.Write(data)`: an implied `WriteHeader(200)` when nothing was
committed, then the bytes; the error returned is the one the environment gives for this
write. -/
def Write (env : Env) (st : State) (data : GoString) : State × Option GoString :=
  let w := st.w.commit 200
  ({ st.emit (.write data) with w := { w with body := w.body ++ data, writes := w.writes + 1 } },
    env.writeErr st.w.writes)

/-- The call `w.(http.Flusher).Flush()`. -/
def Flush (st : State) : State :=
  { st.emit .flush with w := st.w.commit 200 }

/-- The function `http.Error(w, error, code)`: the two header fields are set,
the status is written, and `fmt.Fprintln(w, error)` writes the text and a
newline in one `Write`, whose error is ignored. -/
def Error (env : Env) (st : State) (error : GoString) (code : Nat) : State :=
  let st := st.headerSet "Content-Type".toList "text/plain; charset=utf-8".toList
  let st := st.headerSet "X-Content-Type-Options".toList "nosniff".toList
  let st := st.WriteHeader code
  (st.Write env (error ++ ['\n'])).1

end State

/-! ## `handleRequest` (main.go, lines 27-140) -/

/-- The upstream base URL, main.go line 18. -/
def target : GoString := "https://api.chatai.beauty".toList

/-- The local forwarding proxy, main.go line 19. -/
def httpProxy : GoString := "http://127.0.0.1:10809".toList

/-- The builtin `copy(dst, src)`, as the new content of `dst`. -/
def copy (dst src : GoString) : GoString :=
  src.take dst.length ++ dst.drop src.length

/-- The read loop of main.go, lines 122-139, over the results the body reader
still has to give; `buf` is the 1024-byte buffer and `respBody` the bytes kept
for the log. -/
def stream (env : Env) : List ReadResult → GoString → GoString → State → State
  | [], _, respBody, st => (st.emit .bodyRead).log [respBody]
  | r :: rest, buf, respBody, st =>
    let st := st.emit .bodyRead
    let n := r.data.length
    let buf := copy buf r.data
    if r.err = some .EOF ∨ n = 0 then st.log [respBody]
    else match r.err with
      | some e =>
        (st.log ["error while reading respbody: ".toList, e.Error]).Error env e.Error 500
      | none =>
        match st.Write env (buf.take n) with
        | (st, some e) => (st.log ["error while writing resp: ".toList, e]).Error env e 500
        | (st, none) => stream env rest buf (respBody ++ buf.take n) st.Flush

/-- The response stage, main.go lines 107-139: the upstream headers are copied
to `w.Header()`, the upstream status is written, the body is streamed, and the
deferred `resp.Body.Close()` runs at the return, also when `WriteHeader`
panicked at line 117 and the read loop is never entered. -/
def respond (env : Env) (resp : Response) (st : State) : State :=
  let st := { st with w := { st.w with header := Header.copyInto resp.Header st.w.header } }
  let st := st.WriteHeader resp.StatusCode
  let st := if st.panicked then st
    else stream env resp.Body (List.replicate 1024 (Char.ofNat 0)) [] st
  st.emit .bodyClose

/-- The request `proxyReq` as it stands at main.go line 85. -/
def buildProxyReq (p : ProxyHandler) (r : Request) (targetURL : GoString) : ProxyRequest :=
  let proxyReq : ProxyRequest := { Method := r.Method, URL := targetURL, Body := r.Body, Header := [] }
  let proxyReq := { proxyReq with Header := Header.copyInto r.Header proxyReq.Header }
  { proxyReq with
    Header := proxyReq.Header.Set "Authorization".toList ("Bearer ".toList ++ p.OpenAIKey) }

/-- The client of main.go lines 87-98. -/
def buildClient (env : Env) : Client :=
  let client : Client := { Timeout := 60, Transport := none }
  if env.Getenv "ENV".toList = "local".toList then
    { client with Transport := some { Proxy := httpProxy, InsecureSkipVerify := true } }
  else client

/-- The forwarding stage, main.go lines 62-106, followed by the response stage. -/
def forward (env : Env) (p : ProxyHandler) (r : Request) (st : State) : State :=
  let newPath := Normalize r.URL.Path
  let targetURL := target ++ newPath
  let st := st.emit (.newRequest r.Method targetURL)
  match env.newRequest r.Method targetURL with
  | some e =>
    (st.log ["Error creating proxy request: ".toList, e]).Error env
      "Error creating proxy request".toList 500
  | none =>
    let proxyReq := buildProxyReq p r targetURL
    let client := buildClient env
    let st := st.emit (.clientDo client proxyReq)
    match env.clientDo client proxyReq with
    | .error e => (st.log ["Error sending proxy request: ".toList, e]).Error env e 500
    | .ok resp => respond env resp st

/-- The authentication step, main.go lines 47-60, followed by the later stages. -/
def authenticate (env : Env) (p : ProxyHandler) (r : Request) (st : State) : State :=
  let auth := r.Header.Get "Authorization".toList
  let st := st.log ["auth: ".toList, auth]
  if auth = [] then
    (((st.WriteHeader 401).Write env "Unauthorized".toList).1)
  else
    let token := strings.TrimPrefix auth "Bearer ".toList
    if !p.CheckToken token then
      (((st.WriteHeader 401).Write env "Unauthorized".toList).1)
    else forward env p r st

/-- The handler `handleRequest(w, r)` for a new response writer `w`: the state
in which it returns (or in which `log.Fatal` ends the process). -/
def handleRequest (env : Env) (r : Request) : State :=
  let st := State.fresh
  match env.urlParse r.URL with
  | some e =>
    (st.log ["Error parsing URL: ".toList, e]).Error env "Internal Server Error".toList 500
  | none =>
    let st := st.log ["[".toList ++ r.Method ++ "] ".toList ++ r.RemoteAddr]
    match env.setup with
    | .configError e => st.Fatal e
    | .repoError e => st.Fatal e
    | .ready p => authenticate env p r st

/-- The requests handed to `client.Do` during a run, in order. -/
def outbound (st : State) : List ProxyRequest :=
  st.trace.filterMap (fun e => match e with
    | .clientDo _ req => some req
    | _ => none)

/-- A read that returns the bytes `c` and no error. -/
def ReadResult.ok (c : GoString) : ReadResult := { data := c, err := none }

/-- The calls of one round of the read loop that forwards the chunk `c`. -/
def roundOf (c : GoString) : List Event := [.bodyRead, .write c, .flush]

/-- The state after the chunks `chunks` were read, written and flushed. -/
def State.afterChunks (st : State) (chunks : List GoString) : State :=
  { st with
    w := { st.w with body := st.w.body ++ chunks.flatten, writes := st.w.writes + chunks.length },
    trace := st.trace ++ chunks.flatMap roundOf }

/-- The state in which an authorized run enters the response stage: the two
log lines are written, the outbound request was built and issued, and nothing
was done to the response writer. -/
def State.atResponse (env : Env) (p : ProxyHandler) (r : Request) : State :=
  { w := ResponseWriter.fresh,
    trace := [.newRequest r.Method (target ++ Normalize r.URL.Path),
      .clientDo (buildClient env) (buildProxyReq p r (target ++ Normalize r.URL.Path))],
    logs := [["[".toList ++ r.Method ++ "] ".toList ++ r.RemoteAddr],
      ["auth: ".toList, r.Header.Get "Authorization".toList]],
    fatal := false,
    panicked := false }

/-- The state in which the read loop starts when `WriteHeader` committed the
upstream status: the upstream headers are copied and went out with it. -/
def State.atStream (env : Env) (p : ProxyHandler) (r : Request) (resp : Response) : State :=
  { State.atResponse env p r with
    w := { header := Header.copyInto resp.Header [], wroteHeader := true,
           status := resp.StatusCode, sent := Header.copyInto resp.Header [],
           interim := [], body := [], writes := 0 },
    trace := (State.atResponse env p r).trace ++ [.writeHeader resp.StatusCode] }

/-- The status codes that `WriteHeader` accepts without a panic. -/
def AcceptedCode (code : Nat) : Prop := 100 ≤ code ∧ code ≤ 999

instance (code : Nat) : Decidable (AcceptedCode code) := by
  unfold AcceptedCode; exact inferInstance

/-- A response as `client.Do` returns it carries a final status: the transport
consumes the interim responses (100 to 199, except 101) itself. -/
def Response.Final (resp : Response) : Prop := interimCode resp.StatusCode = false

instance (resp : Response) : Decidable resp.Final := by
  unfold Response.Final; exact inferInstance

/-- The token the handler extracts from the request, main.go lines 47 and 55. -/
def extractToken (r : Request) : GoString :=
  strings.TrimPrefix (r.Header.Get "Authorization".toList) "Bearer ".toList

/-- The run reaches the authentication step with the proxy handler `p`: the
URL check passed and main.go lines 37-45 produced `p`. -/
def ReachesAuth (env : Env) (r : Request) (p : ProxyHandler) : Prop :=
  env.urlParse r.URL = none ∧ env.setup = .ready p

/-- An authorized inbound request: the run reaches the authentication step,
the `Authorization` header is not empty and `CheckToken` accepts the token. -/
def Authorized (env : Env) (r : Request) (p : ProxyHandler) : Prop :=
  ReachesAuth env r p ∧ r.Header.Get "Authorization".toList ≠ [] ∧
    p.CheckToken (extractToken r) = true

/-- The URL string handed to `http.NewRequest`, main.go line 67. -/
def targetURL (r : Request) : GoString := target ++ Normalize r.URL.Path

/-! ## A sample deployment, for concrete runs -/

/-- A proxy handler whose token store holds the one token `secret`. -/
def sampleHandler : ProxyHandler :=
  { OpenAIKey := "sk-upstream".toList, CheckToken := fun t => t = "secret".toList }

/-- An upstream answering 202 with header `X-Trace: abc` and the body chunks
`ab`, `cd`, ended by a zero-length end-of-stream read. -/
def sampleResponse : Response :=
  { StatusCode := 202,
    Header := [("X-Trace".toList, ["abc".toList])],
    Body := [⟨"ab".toList, none⟩, ⟨"cd".toList, none⟩, ⟨[], some .EOF⟩] }

/-- An environment in which every step succeeds and the upstream answers
`resp`. -/
def sampleEnv (resp : Response) : Env :=
  { urlParse := fun _ => none,
    setup := .ready sampleHandler,
    newRequest := fun _ _ => none,
    Getenv := fun _ => [],
    clientDo := fun _ _ => .ok resp,
    writeErr := fun _ => none }

/-- A request `POST /v1/chat?stream=true` with a valid token and two values of
`Accept`. -/
def sampleRequest : Request :=
  { Method := "POST".toList,
    URL := { Path := "/v1/chat".toList, RawQuery := "stream=true".toList },
    Header := [("Authorization".toList, ["Bearer secret".toList]),
               ("Accept".toList, ["text/event-stream".toList, "application/json".toList])],
    Body := "hello".toList,
    RemoteAddr := "10.0.0.1:4000".toList }

/-- The sample request without its `Authorization` header. -/
def anonymousRequest : Request :=
  { sampleRequest with
    Header := [("Accept".toList, ["text/event-stream".toList, "application/json".toList])] }

/-- An environment in which the upstream cannot be reached. -/
def unreachableEnv : Env :=
  { sampleEnv sampleResponse with
    clientDo := fun _ _ => .error "dial tcp: connection refused".toList }

/-- The sample upstream whose second read returns the bytes `cd` together with
an error that is not `io.EOF`. -/
def faultyResponse : Response :=
  { sampleResponse with
    Body := [ReadResult.ok "ab".toList,
      { data := "cd".toList, err := some (.other "unexpected EOF".toList) }] }

/-- The sample upstream whose last read returns the bytes `cd` together with
`io.EOF`, as the `io.Reader` contract allows. -/
def eofWithDataResponse : Response :=
  { sampleResponse with
    Body := [ReadResult.ok "ab".toList, { data := "cd".toList, err := some .EOF }] }

/-- The segments of a path: the texts between its `/` separators. -/
def segments : GoString → List GoString
  | [] => [[]]
  | c :: t =>
    if c = '/' then [] :: segments t
    else match segments t with
      | [] => [[c]]
      | s :: ss => (c :: s) :: ss

/-- Path normalisation in the words of the specification: at most one whole
`release` segment and at most one whole `test` segment are removed, every
other segment is left as it is. -/
def NormalizeBySegments (path : GoString) : GoString :=
  "/".toList.intercalate (((segments path).erase "release".toList).erase "test".toList)

set_option maxRecDepth 20000

/-! ## Facts about `strings.Replace1` -/

theorem HasPrefix_iff (s pre : GoString) : strings.HasPrefix s pre = true ↔ pre <+: s := by
  unfold strings.HasPrefix
  exact List.isPrefixOf_iff_prefix

/-- Where `old` does not occur, the replacement returns its argument. -/
theorem Replace1_of_absent (old new : GoString) :
    ∀ s : GoString, ¬ old <:+: s → strings.Replace1 s old new = s := by
  intro s
  induction s with
  | nil =>
    intro h
    have hp : strings.HasPrefix [] old = false := by
      cases hb : strings.HasPrefix [] old with
      | false => rfl
      | true => exact absurd ((HasPrefix_iff _ _).1 hb).isInfix h
    simp [strings.Replace1, hp]
  | cons c t ih =>
    intro h
    have hp : strings.HasPrefix (c :: t) old = false := by
      cases hb : strings.HasPrefix (c :: t) old with
      | false => rfl
      | true => exact absurd ((HasPrefix_iff _ _).1 hb).isInfix h
    have ht : ¬ old <:+: t := fun hi => h (List.infix_cons hi)
    simp [strings.Replace1, hp, ih ht]

/-- An occurrence of `sep :: q`, where `sep` is not in `q`, cannot begin inside a
non-empty `a` and run over a following `sep`. -/
theorem prefix_no_straddle (sep : Char) (q a m : GoString) (hq : sep ∉ q)
    (h : sep :: q <+: a ++ sep :: m) : sep :: q <+: a ∨ a = [] := by
  rcases List.prefix_or_prefix_of_prefix h (List.prefix_append a (sep :: m)) with h1 | h1
  · exact Or.inl h1
  · obtain ⟨r, hr⟩ := h1
    cases a with
    | nil => exact Or.inr rfl
    | cons c a1 =>
      left
      rw [← hr] at h
      have h2 : r <+: sep :: m := (List.prefix_append_right_inj _).1 h
      cases r with
      | nil => rw [List.append_nil] at hr; rw [hr]
      | cons d r1 =>
        have hd : d = sep := (List.cons_prefix_cons.1 h2).1
        subst hd
        have hq2 : q = a1 ++ d :: r1 := by
          have := hr
          simp only [List.cons_append, List.cons.injEq] at this
          exact this.2.symm
        exact absurd (by rw [hq2]; simp) hq

/-- An occurrence of `sep :: q` in `a ++ sep :: m` lies in `a` or in `sep :: m`. -/
theorem occurrence_no_straddle (sep : Char) (q m : GoString) (hq : sep ∉ q) :
    ∀ a : GoString, sep :: q <:+: a ++ sep :: m → sep :: q <:+: a ∨ sep :: q <:+: sep :: m := by
  intro a
  induction a with
  | nil => intro h; exact Or.inr (by simpa using h)
  | cons c a1 ih =>
    intro h
    rw [List.cons_append, List.infix_cons_iff] at h
    rcases h with h | h
    · have h3 : sep :: q <+: (c :: a1) ++ sep :: m := by simpa using h
      rcases prefix_no_straddle sep q (c :: a1) m hq h3 with h4 | h4
      · exact Or.inl h4.isInfix
      · exact absurd h4 (by simp)
    · rcases ih h with h4 | h4
      · exact Or.inl (List.infix_cons h4)
      · exact Or.inr h4

/-- An occurrence of `sep :: q` in `w ++ b`, where `sep` is not in `w`, lies in `b`. -/
theorem occurrence_skip (sep : Char) (q b : GoString) :
    ∀ w : GoString, sep ∉ w → sep :: q <:+: w ++ b → sep :: q <:+: b := by
  intro w
  induction w with
  | nil => intro _ h; simpa using h
  | cons d w1 ih =>
    intro hw h
    rw [List.cons_append, List.infix_cons_iff] at h
    rcases h with h | h
    · have : sep = d := (List.cons_prefix_cons.1 h).1
      exact absurd (by simp [this]) hw
    · exact ih (fun hm => hw (List.mem_cons_of_mem _ hm)) h

/-- The leftmost occurrence of `sep :: q` in `a ++ (sep :: q) ++ b` is the one
after `a`, when `a` holds none and `sep` is not in `q`. -/
theorem Replace1_inserted (sep : Char) (q new b : GoString) (hq : sep ∉ q) :
    ∀ a : GoString, ¬ sep :: q <:+: a →
      strings.Replace1 (a ++ ((sep :: q) ++ b)) (sep :: q) new = a ++ (new ++ b) := by
  intro a
  induction a with
  | nil =>
    intro _
    have hp : strings.HasPrefix ((sep :: q) ++ b) (sep :: q) = true :=
      (HasPrefix_iff _ _).2 (List.prefix_append _ _)
    unfold strings.Replace1
    rw [List.nil_append, if_pos hp, List.drop_left, List.nil_append]
  | cons c a1 ih =>
    intro h
    have hp : strings.HasPrefix ((c :: a1) ++ ((sep :: q) ++ b)) (sep :: q) = false := by
      cases hb : strings.HasPrefix ((c :: a1) ++ ((sep :: q) ++ b)) (sep :: q) with
      | false => rfl
      | true =>
        have h1 : sep :: q <+: (c :: a1) ++ sep :: (q ++ b) := by
          simpa using (HasPrefix_iff _ _).1 hb
        rcases prefix_no_straddle sep q (c :: a1) (q ++ b) hq h1 with h2 | h2
        · exact absurd h2.isInfix h
        · exact absurd h2 (by simp)
    have ht : ¬ sep :: q <:+: a1 := fun hi => h (List.infix_cons hi)
    have h5 := ih ht
    have hp2 : ¬ strings.HasPrefix ((c :: a1) ++ ((sep :: q) ++ b)) (sep :: q) = true := by
      rw [hp]; exact Bool.false_ne_true
    unfold strings.Replace1
    rw [if_neg hp2]
    show c :: strings.Replace1 (a1 ++ ((sep :: q) ++ b)) (sep :: q) new = c :: a1 ++ (new ++ b)
    rw [h5]; rfl

theorem releaseMarker_eq : releaseMarker = '/' :: "release".toList := rfl

theorem testMarker_eq : testMarker = '/' :: "test".toList := rfl

/-- C4: path normalisation undoes the insertion of an environment marker.  For
all strings `a` and `b` such that `a ++ b` contains neither `/release` nor
`/test`, inserting `/release`, `/test` or `/release/test` between `a` and `b`
and normalising gives back `a ++ b`. -/
theorem Normalize_inserted_marker (a b : GoString)
    (hr : ¬ "/release".toList <:+: a ++ b) (ht : ¬ "/test".toList <:+: a ++ b) :
    Normalize (a ++ "/release".toList ++ b) = a ++ b ∧
    Normalize (a ++ "/test".toList ++ b) = a ++ b ∧
    Normalize (a ++ "/release/test".toList ++ b) = a ++ b := by
  have hsr : '/' ∉ "release".toList := by decide
  have hst : '/' ∉ "test".toList := by decide
  have hra : ¬ '/' :: "release".toList <:+: a := fun h =>
    hr (h.trans (List.prefix_append a b).isInfix)
  have hta : ¬ '/' :: "test".toList <:+: a := fun h =>
    ht (h.trans (List.prefix_append a b).isInfix)
  have hrb : ¬ '/' :: "release".toList <:+: b := fun h =>
    hr (h.trans (List.suffix_append a b).isInfix)
  have htest : strings.Replace1 (a ++ ('/' :: "test".toList ++ b)) ('/' :: "test".toList) []
      = a ++ b := by
    rw [Replace1_inserted '/' "test".toList [] b hst a hta, List.nil_append]
  refine ⟨?_, ?_, ?_⟩
  · rw [List.append_assoc]
    show strings.Replace1 (strings.Replace1 (a ++ ('/' :: "release".toList ++ b))
      ('/' :: "release".toList) []) ('/' :: "test".toList) [] = a ++ b
    rw [Replace1_inserted '/' "release".toList [] b hsr a hra, List.nil_append]
    exact Replace1_of_absent _ _ _ ht
  · rw [List.append_assoc]
    show strings.Replace1 (strings.Replace1 (a ++ ('/' :: "test".toList ++ b))
      ('/' :: "release".toList) []) ('/' :: "test".toList) [] = a ++ b
    have hno : ¬ '/' :: "release".toList <:+: a ++ ('/' :: "test".toList ++ b) := by
      intro h
      rcases occurrence_no_straddle '/' "release".toList ("test".toList ++ b) hsr a h with h1 | h1
      · exact hra h1
      · rw [List.infix_cons_iff] at h1
        rcases h1 with h2 | h2
        · have h3 := (List.cons_prefix_cons.1 h2).2
          have h4 : ('r' : Char) = 't' := (List.cons_prefix_cons.1 h3).1
          exact absurd h4 (by decide)
        · exact hrb (occurrence_skip '/' "release".toList b "test".toList hst h2)
    rw [Replace1_of_absent _ _ _ hno]
    exact htest
  · rw [List.append_assoc]
    show strings.Replace1 (strings.Replace1
      (a ++ ('/' :: "release".toList ++ ('/' :: "test".toList ++ b)))
      ('/' :: "release".toList) []) ('/' :: "test".toList) [] = a ++ b
    rw [Replace1_inserted '/' "release".toList [] _ hsr a hra, List.nil_append]
    exact htest

/-- The fourth claim at work on the three paths it names. -/
theorem Normalize_inserted_marker_witness :
    Normalize "/release/v1/chat".toList = "/v1/chat".toList ∧
    Normalize "/test/v1/chat".toList = "/v1/chat".toList ∧
    Normalize "/v1/release/test/chat".toList = "/v1/chat".toList :=
  ⟨(Normalize_inserted_marker [] "/v1/chat".toList (by decide) (by decide)).1,
   (Normalize_inserted_marker [] "/v1/chat".toList (by decide) (by decide)).2.1,
   (Normalize_inserted_marker "/v1".toList "/chat".toList (by decide) (by decide)).2.2⟩

/-! ## Facts about header maps -/

theorem values_store (h : Header) (k k2 : GoString) (vs : List GoString) :
    (h.store k vs).values k2 = if k = k2 then vs else h.values k2 := by
  induction h with
  | nil => simp [Header.store, Header.values]
  | cons e t ih =>
    obtain ⟨k1, vs1⟩ := e
    by_cases h1 : k1 = k
    · subst h1
      by_cases h2 : k1 = k2
      · simp [Header.store, Header.values, h2]
      · simp [Header.store, Header.values, h2]
    · by_cases h2 : k1 = k2
      · subst h2
        have h3 : ¬ k = k1 := fun h => h1 h.symm
        simp [Header.store, Header.values, h1, h3]
      · simp [Header.store, Header.values, h1, h2, ih]

theorem values_of_not_mem (h : Header) (k : GoString) (hk : k ∉ h.keys) : h.values k = [] := by
  induction h with
  | nil => rfl
  | cons e t ih =>
    obtain ⟨k1, vs1⟩ := e
    simp only [Header.keys, List.map_cons, List.mem_cons, not_or] at hk
    have h1 : ¬ k1 = k := fun h => hk.1 h.symm
    simp only [Header.values, if_neg h1]
    exact ih hk.2

/-- Adding the values `vs` one by one under the key `key`. -/
theorem values_foldl_Add (key k : GoString) (vs : List GoString) :
    ∀ d : Header, (vs.foldl (fun d1 value => d1.Add key value) d).values k
      = if CanonicalMIMEHeaderKey key = k then d.values k ++ vs else d.values k := by
  induction vs with
  | nil => intro d; simp
  | cons v t ih =>
    intro d
    rw [List.foldl_cons, ih]
    by_cases h : CanonicalMIMEHeaderKey key = k
    · simp [h, Header.Add, values_store]
    · simp [h, Header.Add, values_store]

/-- The copy loop over a parsed header map appends, under every key, the values
of the source in their order. -/
theorem values_copyInto (src : Header) (hp : src.Parsed) (k : GoString) :
    ∀ dst : Header, (Header.copyInto src dst).values k = dst.values k ++ src.values k := by
  induction src with
  | nil => intro dst; simp [Header.copyInto, Header.values]
  | cons e t ih =>
    intro dst
    obtain ⟨k1, vs1⟩ := e
    obtain ⟨hnd, hcan⟩ := hp
    simp only [Header.keys, List.map_cons, List.nodup_cons] at hnd
    have hpt : Header.Parsed t := ⟨hnd.2, fun x hx => hcan x (List.mem_cons_of_mem _ hx)⟩
    have hk1 : CanonicalMIMEHeaderKey k1 = k1 := hcan k1 (by simp [Header.keys])
    have step : Header.copyInto ((k1, vs1) :: t) dst
        = Header.copyInto t (vs1.foldl (fun d1 value => d1.Add k1 value) dst) := rfl
    rw [step, ih hpt, values_foldl_Add, hk1]
    by_cases h : k1 = k
    · subst h
      have : Header.values t k1 = [] := values_of_not_mem t k1 hnd.1
      simp [Header.values, this]
    · simp [Header.values, h]

/-! ### Canonical keys: the maps built through `Add` are parsed maps -/

theorem toUpper_not_isLower (c : Char) (h : c.isLower = true) : c.toUpper.isLower = false := by
  have h1 : 97 ≤ c.toNat ∧ c.toNat ≤ 122 := by
    simp [Char.isLower, Char.toNat] at h ⊢
    exact h
  have hc : c = Char.ofNat c.toNat := (Char.ofNat_toNat c).symm
  obtain ⟨h2, h3⟩ := h1
  generalize c.toNat = n at hc h2 h3
  subst hc
  interval_cases n <;> decide

theorem toLower_not_isUpper (c : Char) (h : c.isUpper = true) : c.toLower.isUpper = false := by
  have h1 : 65 ≤ c.toNat ∧ c.toNat ≤ 90 := by
    simp [Char.isUpper, Char.toNat] at h ⊢
    exact h
  have hc : c = Char.ofNat c.toNat := (Char.ofNat_toNat c).symm
  obtain ⟨h2, h3⟩ := h1
  generalize c.toNat = n at hc h2 h3
  subst hc
  interval_cases n <;> decide

/-- The letter-case pass changes nothing in a key it has already treated. -/
theorem canonCase_idem :
    ∀ (s : GoString) (u : Bool), canonCase u (canonCase u s) = canonCase u s := by
  intro s
  induction s with
  | nil => intro u; rfl
  | cons c t ih =>
    intro u
    cases u with
    | true =>
      by_cases hl : c.isLower = true
      · have h2 := toUpper_not_isLower c hl
        simp only [canonCase, hl, h2, Bool.and_self, Bool.and_true, Bool.true_and, Bool.not_true,
          Bool.false_and, if_true, Bool.false_eq_true, if_false, ih]
      · simp only [canonCase, hl, Bool.and_self, Bool.and_true, Bool.true_and, Bool.not_true,
          Bool.false_and, if_true, Bool.false_eq_true, if_false, ih]
    | false =>
      by_cases hl : c.isUpper = true
      · have h2 := toLower_not_isUpper c hl
        simp only [canonCase, hl, h2, Bool.and_self, Bool.and_true, Bool.true_and, Bool.not_false,
          Bool.false_and, if_true, Bool.false_eq_true, if_false, ih]
      · simp only [canonCase, hl, Bool.and_self, Bool.and_true, Bool.true_and, Bool.not_false,
          Bool.false_and, if_true, Bool.false_eq_true, if_false, ih]

theorem canonicalScan_cases (s : GoString) :
    ∀ (rest : GoString) (u : Bool),
      canonicalScan s u rest = s ∨ canonicalScan s u rest = canonicalMIMEHeaderKey s := by
  intro rest
  induction rest with
  | nil => intro u; exact Or.inl rfl
  | cons c t ih =>
    intro u
    unfold canonicalScan
    split
    · exact Or.inl rfl
    · split
      · exact Or.inr rfl
      · split
        · exact Or.inr rfl
        · exact ih _

/-- Canonicalising a key twice gives what canonicalising it once gives. -/
theorem CanonicalMIMEHeaderKey_idem (s : GoString) :
    CanonicalMIMEHeaderKey (CanonicalMIMEHeaderKey s) = CanonicalMIMEHeaderKey s := by
  have hfix : ∀ t : GoString, canonCase true t = t → CanonicalMIMEHeaderKey t = t := by
    intro t ht
    rcases canonicalScan_cases t t true with h | h
    · exact h
    · unfold CanonicalMIMEHeaderKey
      rw [h]
      unfold canonicalMIMEHeaderKey
      split
      · exact ht
      · rfl
  rcases canonicalScan_cases s s true with h | h
  · have h1 : CanonicalMIMEHeaderKey s = s := h
    rw [h1, h1]
  · have h1 : CanonicalMIMEHeaderKey s = canonicalMIMEHeaderKey s := h
    by_cases hv : s.all validHeaderFieldByte = true
    · have h2 : CanonicalMIMEHeaderKey s = canonCase true s := by
        rw [h1]; unfold canonicalMIMEHeaderKey; rw [if_pos hv]
      rw [h2]
      exact hfix _ (canonCase_idem s true)
    · have h2 : CanonicalMIMEHeaderKey s = s := by
        rw [h1]; unfold canonicalMIMEHeaderKey; rw [if_neg hv]
      rw [h2, h2]

theorem keys_store (h : Header) (k : GoString) (vs : List GoString) :
    (h.store k vs).keys = if k ∈ h.keys then h.keys else h.keys ++ [k] := by
  induction h with
  | nil => simp [Header.store, Header.keys]
  | cons e t ih =>
    obtain ⟨k1, vs1⟩ := e
    by_cases h1 : k1 = k
    · subst h1
      simp [Header.store, Header.keys]
    · have h2 : ¬ k = k1 := fun h => h1 h.symm
      simp only [Header.keys] at ih
      by_cases h3 : k ∈ List.map Prod.fst t
      · simp [Header.store, Header.keys, h1, h2, h3, ih]
      · simp [Header.store, Header.keys, h1, h2, h3, ih]

/-- Writing under a canonical key keeps a parsed map parsed. -/
theorem Parsed_store (h : Header) (k : GoString) (vs : List GoString) (hp : h.Parsed)
    (hk : CanonicalMIMEHeaderKey k = k) : (h.store k vs).Parsed := by
  obtain ⟨hnd, hcan⟩ := hp
  unfold Header.Parsed
  rw [keys_store]
  by_cases h1 : k ∈ h.keys
  · rw [if_pos h1]
    exact ⟨hnd, hcan⟩
  · rw [if_neg h1]
    refine ⟨?_, ?_⟩
    · rw [List.nodup_append]
      refine ⟨hnd, List.nodup_singleton k, ?_⟩
      intro x hx hx2
      rw [List.mem_singleton] at hx2
      exact h1 (hx2 ▸ hx)
    · intro x hx
      rw [List.mem_append, List.mem_singleton] at hx
      rcases hx with hx | hx
      · exact hcan x hx
      · rw [hx]; exact hk

theorem Parsed_Add (h : Header) (key value : GoString) (hp : h.Parsed) :
    (h.Add key value).Parsed :=
  Parsed_store h _ _ hp (CanonicalMIMEHeaderKey_idem key)

/-- Every header map built from header lines is a parsed map. -/
theorem Parsed_ofLines (lines : List (GoString × GoString)) : (Header.ofLines lines).Parsed := by
  have h : ∀ (ls : List (GoString × GoString)) (h0 : Header), h0.Parsed →
      (ls.foldl (fun h kv => h.Add kv.1 kv.2) h0).Parsed := by
    intro ls
    induction ls with
    | nil => intro h0 hp; exact hp
    | cons l t ih =>
      intro h0 hp
      exact ih _ (Parsed_Add h0 l.1 l.2 hp)
  exact h lines [] ⟨List.nodup_nil, fun k hk => absurd hk (List.not_mem_nil k)⟩

theorem canonical_Authorization :
    CanonicalMIMEHeaderKey "Authorization".toList = "Authorization".toList := by decide

theorem values_Set (h : Header) (key value k : GoString) :
    (h.Set key value).values k
      = if CanonicalMIMEHeaderKey key = k then [value] else h.values k := by
  simp [Header.Set, values_store]

/-- The headers of `proxyReq`: the caller's values under every key but
`Authorization`, and the upstream credential there. -/
theorem buildProxyReq_headers (p : ProxyHandler) (r : Request) (url : GoString) :
    (buildProxyReq p r url).Header.values "Authorization".toList
        = ["Bearer ".toList ++ p.OpenAIKey] ∧
    (r.Header.Parsed → ∀ k, k ≠ "Authorization".toList →
      (buildProxyReq p r url).Header.values k = r.Header.values k) := by
  constructor
  · unfold buildProxyReq
    rw [values_Set, canonical_Authorization, if_pos rfl]
  · intro hp k hk
    have hk2 : ¬ "Authorization".toList = k := fun h => hk h.symm
    simp only [buildProxyReq, values_Set, canonical_Authorization, if_neg hk2]
    rw [values_copyInto r.Header hp k]
    simp [Header.values]

/-! ## The stages of `handleRequest` -/

/-- The state in which the authentication step starts. -/
theorem handleRequest_reaches (env : Env) (r : Request) (p : ProxyHandler)
    (h : ReachesAuth env r p) :
    handleRequest env r = authenticate env p r
      (State.fresh.log ["[".toList ++ r.Method ++ "] ".toList ++ r.RemoteAddr]) := by
  unfold handleRequest
  rw [h.1, h.2]

theorem authenticate_rejected (env : Env) (r : Request) (p : ProxyHandler) (st : State)
    (h : r.Header.Get "Authorization".toList = [] ∨ p.CheckToken (extractToken r) = false) :
    authenticate env p r st
      = (((st.log ["auth: ".toList, r.Header.Get "Authorization".toList]).WriteHeader 401).Write
          env "Unauthorized".toList).1 := by
  unfold authenticate
  by_cases h1 : r.Header.Get "Authorization".toList = []
  · simp only [h1, if_true]
  · rcases h with h | h
    · exact absurd h h1
    · unfold extractToken at h
      simp only [h1, if_false, h, Bool.not_false, if_true]

theorem authenticate_accepted (env : Env) (r : Request) (p : ProxyHandler) (st : State)
    (h1 : r.Header.Get "Authorization".toList ≠ []) (h2 : p.CheckToken (extractToken r) = true) :
    authenticate env p r st
      = forward env p r (st.log ["auth: ".toList, r.Header.Get "Authorization".toList]) := by
  unfold authenticate
  unfold extractToken at h2
  simp only [h1, if_false, h2, Bool.not_true, Bool.false_eq_true]

/-- The state in which an authorized run enters the forwarding stage. -/
theorem handleRequest_authorized (env : Env) (r : Request) (p : ProxyHandler)
    (h : Authorized env r p) :
    handleRequest env r = forward env p r
      ((State.fresh.log ["[".toList ++ r.Method ++ "] ".toList ++ r.RemoteAddr]).log
        ["auth: ".toList, r.Header.Get "Authorization".toList]) := by
  rw [handleRequest_reaches env r p h.1, authenticate_accepted env r p _ h.2.1 h.2.2]

/-- Whatever `WriteHeader` does with the code, the call is in the trace. -/
theorem trace_WriteHeader (st : State) (code : Nat) :
    (st.WriteHeader code).trace = st.trace ++ [.writeHeader code] := by
  unfold State.WriteHeader
  simp only
  split
  · rfl
  · split
    · rfl
    · split
      · rfl
      · rfl

/-- A code that is accepted and final is committed by the first `WriteHeader`. -/
theorem WriteHeader_commits (st : State) (code : Nat) (hw : st.w.wroteHeader = false)
    (hcode : AcceptedCode code) (hfinal : interimCode code = false) :
    st.WriteHeader code
      = { st.emit (.writeHeader code) with
          w := { st.w with wroteHeader := true, status := code, sent := st.w.header } } := by
  have hinv : invalidWriteHeaderCode code = false := by
    unfold invalidWriteHeaderCode
    unfold AcceptedCode at hcode
    simp only [Bool.or_eq_false_iff, decide_eq_false_iff_not, Nat.not_lt]
    exact hcode
  unfold State.WriteHeader ResponseWriter.commit
  simp only [hw, hinv, hfinal, Bool.false_eq_true, if_false]

theorem trace_Error (env : Env) (st : State) (msg : GoString) (code : Nat) :
    (st.Error env msg code).trace = st.trace ++ [.writeHeader code, .write (msg ++ ['\n'])] := by
  have h : (st.Error env msg code).trace
      = (State.WriteHeader (State.headerSet (State.headerSet st "Content-Type".toList
          "text/plain; charset=utf-8".toList) "X-Content-Type-Options".toList
          "nosniff".toList) code).trace ++ [.write (msg ++ ['\n'])] := rfl
  rw [h, trace_WriteHeader]
  simp [State.headerSet]

/-- The read loop makes no call that builds or issues an outbound request. -/
theorem trace_stream (env : Env) :
    ∀ (reads : List ReadResult) (buf respBody : GoString) (st : State),
      ∃ evs : List Event, (stream env reads buf respBody st).trace = st.trace ++ evs ∧
        ∀ e ∈ evs, e.isOutbound = false := by
  intro reads
  induction reads with
  | nil =>
    intro buf respBody st
    exact ⟨[.bodyRead], rfl, by simp [Event.isOutbound]⟩
  | cons rd rest ih =>
    intro buf respBody st
    unfold stream
    simp only
    split
    · exact ⟨[.bodyRead], rfl, by simp [Event.isOutbound]⟩
    · split
      · rename_i e0 _
        refine ⟨[.bodyRead, .writeHeader 500, .write (e0.Error ++ ['\n'])], ?_,
          by simp [Event.isOutbound]⟩
        rw [trace_Error]
        simp [State.log, State.emit]
      · split
        · rename_i st2 e heq
          have h1 : st2 = ((st.emit .bodyRead).Write env
              ((copy buf rd.data).take rd.data.length)).1 := by rw [heq]
          refine ⟨[.bodyRead, .write ((copy buf rd.data).take rd.data.length),
            .writeHeader 500, .write (e ++ ['\n'])], ?_, by simp [Event.isOutbound]⟩
          rw [trace_Error, h1]
          simp [State.log, State.emit, State.Write]
        · rename_i st2 heq
          have h1 : st2 = ((st.emit .bodyRead).Write env
              ((copy buf rd.data).take rd.data.length)).1 := by rw [heq]
          obtain ⟨evs, h2, h3⟩ := ih (copy buf rd.data)
            (respBody ++ (copy buf rd.data).take rd.data.length) st2.Flush
          refine ⟨[.bodyRead, .write ((copy buf rd.data).take rd.data.length), .flush] ++ evs,
            ?_, ?_⟩
          · rw [h2, h1]
            simp [State.Flush, State.emit, State.Write]
          · intro e he
            simp only [List.mem_append, List.mem_cons, List.mem_singleton,
              List.not_mem_nil, or_false] at he
            rcases he with (he | he | he) | he
            · rw [he]; rfl
            · rw [he]; rfl
            · rw [he]; rfl
            · exact h3 e he

/-- The response stage makes no call that builds or issues an outbound request. -/
theorem trace_respond (env : Env) (resp : Response) (st : State) :
    ∃ evs : List Event, (respond env resp st).trace = st.trace ++ evs ∧
      ∀ e ∈ evs, e.isOutbound = false := by
  unfold respond
  simp only
  split
  · refine ⟨[.writeHeader resp.StatusCode, .bodyClose], ?_, ?_⟩
    · simp only [State.emit]
      rw [trace_WriteHeader]
      simp
    · intro e he
      simp only [List.mem_cons, List.mem_singleton, List.not_mem_nil, or_false] at he
      rcases he with he | he
      · rw [he]; rfl
      · rw [he]; rfl
  · obtain ⟨evs, h2, h3⟩ := trace_stream env resp.Body (List.replicate 1024 (Char.ofNat 0)) []
      (State.WriteHeader { st with w := { st.w with
        header := Header.copyInto resp.Header st.w.header } } resp.StatusCode)
    refine ⟨[.writeHeader resp.StatusCode] ++ evs ++ [.bodyClose], ?_, ?_⟩
    · simp only [State.emit]
      rw [h2, trace_WriteHeader]
      simp
    · intro e he
      simp only [List.mem_append, List.mem_singleton] at he
      rcases he with (he | he) | he
      · rw [he]; rfl
      · exact h3 e he
      · rw [he]; rfl

theorem filterMap_clientDo_none (evs : List Event) (h : ∀ e ∈ evs, e.isOutbound = false) :
    evs.filterMap (fun e => match e with
      | .clientDo _ req => some req
      | _ => none) = [] := by
  induction evs with
  | nil => rfl
  | cons e t ih =>
    have h1 := h e (List.mem_cons_self _ _)
    have h2 := ih (fun x hx => h x (List.mem_cons_of_mem _ hx))
    cases e <;> simp_all [Event.isOutbound]

/-- An authorized run whose `http.NewRequest` succeeds issues exactly one
outbound request, the one built at main.go lines 70-84. -/
theorem outbound_authorized (env : Env) (r : Request) (p : ProxyHandler)
    (ha : Authorized env r p) (hnew : env.newRequest r.Method (targetURL r) = none) :
    outbound (handleRequest env r) = [buildProxyReq p r (targetURL r)] := by
  rw [handleRequest_authorized env r p ha]
  unfold forward
  unfold targetURL at hnew
  simp only [hnew]
  cases hdo : env.clientDo (buildClient env) (buildProxyReq p r (target ++ Normalize r.URL.Path)) with
  | error e =>
    simp only [outbound]
    rw [trace_Error]
    simp [State.log, State.emit, State.fresh, targetURL]
  | ok resp =>
    simp only
    obtain ⟨evs, h2, h3⟩ := trace_respond env resp
      (State.emit (State.emit ((State.fresh.log
        ["[".toList ++ r.Method ++ "] ".toList ++ r.RemoteAddr]).log
          ["auth: ".toList, r.Header.Get "Authorization".toList])
        (.newRequest r.Method (target ++ Normalize r.URL.Path)))
        (.clientDo (buildClient env) (buildProxyReq p r (target ++ Normalize r.URL.Path))))
    simp only [outbound]
    rw [h2, List.filterMap_append, filterMap_clientDo_none evs h3]
    simp [State.log, State.emit, State.fresh, targetURL]

/-- C1: for every inbound request that reaches the authentication step, if the
Authorization header is absent or empty, or if CheckToken rejects the token
taken from it (the header value without a leading "Bearer "), then the
response has status 401 and body "Unauthorized", no header field is set, and
the two calls that write them are the only calls the handler makes. -/
theorem unauthorized_is_401 (env : Env) (r : Request) (p : ProxyHandler)
    (hreach : ReachesAuth env r p)
    (hrej : r.Header.Get "Authorization".toList = [] ∨
      p.CheckToken (strings.TrimPrefix (r.Header.Get "Authorization".toList) "Bearer ".toList)
        = false) :
    (handleRequest env r).w.wroteHeader = true ∧
    (handleRequest env r).w.status = 401 ∧
    (handleRequest env r).w.body = "Unauthorized".toList ∧
    (handleRequest env r).w.sent = [] ∧
    (handleRequest env r).w.header = [] ∧
    (handleRequest env r).trace = [.writeHeader 401, .write "Unauthorized".toList] ∧
    (handleRequest env r).fatal = false := by
  rw [handleRequest_reaches env r p hreach, authenticate_rejected env r p _ hrej]
  refine ⟨rfl, rfl, rfl, rfl, rfl, rfl, rfl⟩

/-- The first claim at work: the sample request without its Authorization
header is answered 401 "Unauthorized" and nothing else. -/
theorem unauthorized_is_401_witness :
    ReachesAuth (sampleEnv sampleResponse) anonymousRequest sampleHandler ∧
    anonymousRequest.Header.Get "Authorization".toList = [] ∧
    (handleRequest (sampleEnv sampleResponse) anonymousRequest).w.status = 401 ∧
    (handleRequest (sampleEnv sampleResponse) anonymousRequest).w.body = "Unauthorized".toList ∧
    (handleRequest (sampleEnv sampleResponse) anonymousRequest).trace
      = [.writeHeader 401, .write "Unauthorized".toList] :=
  have h := unauthorized_is_401 (sampleEnv sampleResponse) anonymousRequest sampleHandler
    ⟨rfl, rfl⟩ (Or.inl (by decide))
  ⟨⟨rfl, rfl⟩, by decide, h.2.1, h.2.2.1, h.2.2.2.2.2.1⟩

/-- C2: for every authorized inbound request whose outbound request is built,
the headers of that request are a copy of the inbound headers (every key other
than Authorization keeps all its values in their order), except that
Authorization has exactly one value, "Bearer " followed by the upstream
credential OpenAIKey, whatever Authorization values the caller sent. -/
theorem outbound_headers (env : Env) (r : Request) (p : ProxyHandler)
    (ha : Authorized env r p) (hnew : env.newRequest r.Method (targetURL r) = none)
    (hH : r.Header.Parsed) :
    ∃ req, outbound (handleRequest env r) = [req] ∧
      req.Header.values "Authorization".toList = ["Bearer ".toList ++ p.OpenAIKey] ∧
      ∀ k, k ≠ "Authorization".toList → req.Header.values k = r.Header.values k :=
  ⟨buildProxyReq p r (targetURL r), outbound_authorized env r p ha hnew,
    (buildProxyReq_headers p r (targetURL r)).1,
    (buildProxyReq_headers p r (targetURL r)).2 hH⟩

/-- The second claim at work on the sample request, which carries the token
"secret" and two values of Accept. -/
theorem outbound_headers_witness :
    Authorized (sampleEnv sampleResponse) sampleRequest sampleHandler ∧
    sampleRequest.Header.Parsed ∧
    ∃ req, outbound (handleRequest (sampleEnv sampleResponse) sampleRequest) = [req] ∧
      req.Header.values "Authorization".toList = ["Bearer ".toList ++ sampleHandler.OpenAIKey] ∧
      ∀ k, k ≠ "Authorization".toList → req.Header.values k = sampleRequest.Header.values k :=
  ⟨⟨⟨rfl, rfl⟩, by decide, by decide⟩, by decide,
    outbound_headers (sampleEnv sampleResponse) sampleRequest sampleHandler
      ⟨⟨rfl, rfl⟩, by decide, by decide⟩ rfl (by decide)⟩

/-- C3, as the claim states it, fails: the sample request is authorized and
carries the query string "stream=true", and the one outbound request has the
URL "https://api.chatai.beauty/v1/chat", which is not the base URL followed by
the normalized path, a question mark and that query string, and in which the
query string occurs nowhere. -/
theorem query_string_not_forwarded :
    Authorized (sampleEnv sampleResponse) sampleRequest sampleHandler ∧
    sampleRequest.URL.RawQuery = "stream=true".toList ∧
    (outbound (handleRequest (sampleEnv sampleResponse) sampleRequest)).map ProxyRequest.URL
      = ["https://api.chatai.beauty/v1/chat".toList] ∧
    (outbound (handleRequest (sampleEnv sampleResponse) sampleRequest)).map ProxyRequest.URL
      ≠ [target ++ Normalize sampleRequest.URL.Path ++ "?".toList
          ++ sampleRequest.URL.RawQuery] ∧
    ¬ sampleRequest.URL.RawQuery <:+: "https://api.chatai.beauty/v1/chat".toList :=
  ⟨⟨⟨rfl, rfl⟩, by decide, by decide⟩, rfl, by decide, by decide, by decide⟩

/-- C3, amended: for every authorized inbound request whose outbound request
is built, with or without a query string, the outbound URL is the upstream
base URL followed by the normalized path, and nothing after it. -/
theorem outbound_url_is_base_and_path (env : Env) (r : Request) (p : ProxyHandler)
    (ha : Authorized env r p)
    (hnew : env.newRequest r.Method (target ++ Normalize r.URL.Path) = none) :
    (outbound (handleRequest env r)).map ProxyRequest.URL = [target ++ Normalize r.URL.Path] := by
  rw [outbound_authorized env r p ha hnew]
  rfl

/-- The amended third claim at work on the sample request. -/
theorem outbound_url_is_base_and_path_witness :
    Authorized (sampleEnv sampleResponse) sampleRequest sampleHandler ∧
    (outbound (handleRequest (sampleEnv sampleResponse) sampleRequest)).map ProxyRequest.URL
      = [target ++ Normalize sampleRequest.URL.Path] :=
  ⟨⟨⟨rfl, rfl⟩, by decide, by decide⟩,
    outbound_url_is_base_and_path (sampleEnv sampleResponse) sampleRequest sampleHandler
      ⟨⟨rfl, rfl⟩, by decide, by decide⟩ rfl⟩

/-- C7: for every authorized inbound request whose outbound call fails before
any upstream response is received (client.Do returns the error `e`), the
caller receives status 500 with the plain-text header fields of http.Error and
a body made of the error text, ended by a newline; the calls of the run are
one http.NewRequest, one client.Do, one WriteHeader and one Write, so the
outbound call is attempted once and no upstream header or body byte is
written. -/
theorem transport_failure_is_500 (env : Env) (r : Request) (p : ProxyHandler) (e : GoString)
    (ha : Authorized env r p) (hnew : env.newRequest r.Method (targetURL r) = none)
    (hdo : env.clientDo (buildClient env) (buildProxyReq p r (targetURL r)) = .error e) :
    (handleRequest env r).w.wroteHeader = true ∧
    (handleRequest env r).w.status = 500 ∧
    (handleRequest env r).w.sent
      = [("Content-Type".toList, ["text/plain; charset=utf-8".toList]),
         ("X-Content-Type-Options".toList, ["nosniff".toList])] ∧
    (handleRequest env r).w.body = e ++ "\n".toList ∧
    (handleRequest env r).trace
      = [.newRequest r.Method (targetURL r),
         .clientDo (buildClient env) (buildProxyReq p r (targetURL r)),
         .writeHeader 500, .write (e ++ "\n".toList)] ∧
    (handleRequest env r).trace.countP
      (fun ev => match ev with
        | .clientDo _ _ => true
        | _ => false) = 1 := by
  rw [handleRequest_authorized env r p ha]
  unfold forward
  unfold targetURL at hnew hdo
  simp only [hnew, hdo]
  refine ⟨rfl, rfl, rfl, rfl, rfl, rfl⟩

/-- The seventh claim at work: the sample request against an upstream that
refuses the connection. -/
theorem transport_failure_is_500_witness :
    Authorized unreachableEnv sampleRequest sampleHandler ∧
    (handleRequest unreachableEnv sampleRequest).w.status = 500 ∧
    (handleRequest unreachableEnv sampleRequest).w.body
      = "dial tcp: connection refused\n".toList :=
  have h := transport_failure_is_500 unreachableEnv sampleRequest sampleHandler
    "dial tcp: connection refused".toList ⟨⟨rfl, rfl⟩, by decide, by decide⟩ rfl rfl
  ⟨⟨⟨rfl, rfl⟩, by decide, by decide⟩, h.2.1, h.2.2.2.1⟩

/-- The forwarding stage starts by building the outbound request. -/
theorem newRequest_mem_forward (env : Env) (p : ProxyHandler) (r : Request) (st : State) :
    Event.newRequest r.Method (targetURL r) ∈ (forward env p r st).trace := by
  unfold forward
  simp only
  cases hnew : env.newRequest r.Method (target ++ Normalize r.URL.Path) with
  | some e =>
    simp only
    rw [trace_Error]
    simp [State.log, State.emit, targetURL]
  | none =>
    simp only
    cases hdo : env.clientDo (buildClient env)
        (buildProxyReq p r (target ++ Normalize r.URL.Path)) with
    | error e =>
      simp only
      rw [trace_Error]
      simp [State.log, State.emit, targetURL]
    | ok resp =>
      simp only
      obtain ⟨evs, h2, _⟩ := trace_respond env resp
        (State.emit (State.emit st (.newRequest r.Method (target ++ Normalize r.URL.Path)))
          (.clientDo (buildClient env) (buildProxyReq p r (target ++ Normalize r.URL.Path))))
      rw [h2]
      simp [State.emit, targetURL]

/-- C10: authentication precedes forwarding and is terminal.  A run makes a
call that builds or issues an outbound request exactly when it reaches the
authentication step, the Authorization header is not empty and CheckToken
accepts the extracted token; and a run that is rejected there answers 401,
makes no such call, and ends in the same state whatever the inbound body is,
so the body is never read. -/
theorem auth_precedes_forwarding (env : Env) (r : Request) :
    ((∃ e ∈ (handleRequest env r).trace, e.isOutbound = true) ↔
      ∃ p, ReachesAuth env r p ∧ r.Header.Get "Authorization".toList ≠ [] ∧
        p.CheckToken (extractToken r) = true) ∧
    (∀ p, ReachesAuth env r p →
      (r.Header.Get "Authorization".toList = [] ∨ p.CheckToken (extractToken r) = false) →
      (handleRequest env r).w.status = 401 ∧
      (∀ e ∈ (handleRequest env r).trace, e.isOutbound = false) ∧
      outbound (handleRequest env r) = [] ∧
      ∀ body : GoString, handleRequest env { r with Body := body } = handleRequest env r) := by
  have hrej : ∀ p, ReachesAuth env r p →
      (r.Header.Get "Authorization".toList = [] ∨ p.CheckToken (extractToken r) = false) →
      (handleRequest env r).w.status = 401 ∧
      (∀ e ∈ (handleRequest env r).trace, e.isOutbound = false) ∧
      outbound (handleRequest env r) = [] ∧
      ∀ body : GoString, handleRequest env { r with Body := body } = handleRequest env r := by
    intro p hreach hno
    have hreach2 : ∀ body : GoString, ReachesAuth env { r with Body := body } p := fun _ => hreach
    have hstate := authenticate_rejected env r p
      (State.fresh.log ["[".toList ++ r.Method ++ "] ".toList ++ r.RemoteAddr]) hno
    refine ⟨?_, ?_, ?_, ?_⟩
    · rw [handleRequest_reaches env r p hreach, hstate]; rfl
    · rw [handleRequest_reaches env r p hreach, hstate]
      intro e he
      have he2 : e ∈ [Event.writeHeader 401, Event.write "Unauthorized".toList] := he
      simp only [List.mem_cons, List.mem_singleton, List.not_mem_nil, or_false] at he2
      rcases he2 with he2 | he2
      · rw [he2]; rfl
      · rw [he2]; rfl
    · rw [handleRequest_reaches env r p hreach, hstate]; rfl
    · intro body
      rw [handleRequest_reaches env r p hreach,
        handleRequest_reaches env { r with Body := body } p (hreach2 body), hstate]
      exact authenticate_rejected env { r with Body := body } p _ hno
  refine ⟨⟨?_, ?_⟩, hrej⟩
  · rintro ⟨e, he, hout⟩
    cases hurl : env.urlParse r.URL with
    | some err =>
      exfalso
      unfold handleRequest at he
      simp only [hurl] at he
      rw [trace_Error] at he
      simp only [State.log, State.fresh, List.nil_append, List.mem_cons, List.mem_singleton,
        List.not_mem_nil, or_false] at he
      rcases he with he | he
      · rw [he] at hout; exact absurd hout (by decide)
      · rw [he] at hout; exact absurd hout (by simp [Event.isOutbound])
    | none =>
      cases hsetup : env.setup with
      | configError err =>
        exfalso
        unfold handleRequest at he
        simp only [hurl, hsetup] at he
        exact absurd he (by simp [State.Fatal, State.log, State.fresh])
      | repoError err =>
        exfalso
        unfold handleRequest at he
        simp only [hurl, hsetup] at he
        exact absurd he (by simp [State.Fatal, State.log, State.fresh])
      | ready p =>
        refine ⟨p, ⟨hurl, hsetup⟩, ?_⟩
        by_cases h1 : r.Header.Get "Authorization".toList = []
        · exact absurd hout (by rw [(hrej p ⟨hurl, hsetup⟩ (Or.inl h1)).2.1 e he]; decide)
        · refine ⟨h1, ?_⟩
          cases h2 : p.CheckToken (extractToken r) with
          | true => rfl
          | false =>
            exact absurd hout (by rw [(hrej p ⟨hurl, hsetup⟩ (Or.inr h2)).2.1 e he]; decide)
  · rintro ⟨p, hreach, h1, h2⟩
    refine ⟨.newRequest r.Method (targetURL r), ?_, rfl⟩
    rw [handleRequest_authorized env r p ⟨hreach, h1, h2⟩]
    exact newRequest_mem_forward env p r _

/-- The tenth claim at work: the sample request without its Authorization
header builds no outbound request, and the sample request itself does. -/
theorem auth_precedes_forwarding_witness :
    outbound (handleRequest (sampleEnv sampleResponse) anonymousRequest) = [] ∧
    ∃ e ∈ (handleRequest (sampleEnv sampleResponse) sampleRequest).trace, e.isOutbound = true :=
  ⟨((auth_precedes_forwarding (sampleEnv sampleResponse) anonymousRequest).2 sampleHandler
      ⟨rfl, rfl⟩ (Or.inl (by decide))).2.2.1,
    (auth_precedes_forwarding (sampleEnv sampleResponse) sampleRequest).1.2
      ⟨sampleHandler, ⟨rfl, rfl⟩, by decide, by decide⟩⟩

/-! ## The read loop -/

theorem copy_take (buf c : GoString) (h : c.length ≤ buf.length) :
    (copy buf c).take c.length = c := by
  unfold copy
  rw [List.take_of_length_le h, List.take_left]

theorem copy_length (buf c : GoString) (h : c.length ≤ buf.length) :
    (copy buf c).length = buf.length := by
  unfold copy
  rw [List.take_of_length_le h, List.length_append, List.length_drop]
  omega

theorem afterChunks_nil (st : State) : st.afterChunks [] = st := by
  cases st with
  | mk w trace logs fatal =>
    cases w
    simp [State.afterChunks]

theorem afterChunks_cons (env : Env) (st : State) (c : GoString) (t : List GoString)
    (hw : st.w.wroteHeader = true) :
    (State.Flush ((st.emit .bodyRead).Write env c).1).afterChunks t = st.afterChunks (c :: t) := by
  cases st with
  | mk w trace logs fatal =>
    cases w
    simp only at hw
    simp only [State.afterChunks, State.Flush, State.Write, State.emit, ResponseWriter.commit, hw,
      roundOf, if_true, List.flatten_cons, List.flatMap_cons, List.length_cons,
      List.append_assoc, List.cons_append, List.nil_append, List.singleton_append,
      State.mk.injEq, ResponseWriter.mk.injEq, and_true, true_and]
    omega

/-- The rounds of the read loop over chunks that are read without error, are
not empty and fit the buffer, when every write succeeds: each chunk is written
and flushed before the next read, and the loop goes on with what follows. -/
theorem stream_chunks (env : Env) (hwr : ∀ i, env.writeErr i = none) (rest : List ReadResult) :
    ∀ (chunks : List GoString) (buf respBody : GoString) (st : State),
      (∀ c ∈ chunks, c ≠ [] ∧ c.length ≤ buf.length) → st.w.wroteHeader = true →
      ∃ buf2 : GoString, buf2.length = buf.length ∧
        stream env (chunks.map ReadResult.ok ++ rest) buf respBody st
          = stream env rest buf2 (respBody ++ chunks.flatten) (st.afterChunks chunks) := by
  intro chunks
  induction chunks with
  | nil =>
    intro buf respBody st _ _
    refine ⟨buf, rfl, ?_⟩
    rw [afterChunks_nil]
    simp
  | cons c t ih =>
    intro buf respBody st hc hw
    have hc1 := hc c (List.mem_cons_self _ _)
    have hlen : c.length ≠ 0 := fun h => hc1.1 (List.length_eq_zero.1 h)
    have hstep : stream env ((c :: t).map ReadResult.ok ++ rest) buf respBody st
        = stream env (t.map ReadResult.ok ++ rest) (copy buf c) (respBody ++ c)
            (State.Flush ((st.emit .bodyRead).Write env c).1) := by
      rw [List.map_cons, List.cons_append]
      conv => lhs; unfold stream
      simp only [ReadResult.ok, reduceCtorEq, hlen, or_self, if_false, State.Write, hwr,
        copy_take buf c hc1.2]
    have hw2 : (State.Flush ((st.emit .bodyRead).Write env c).1).w.wroteHeader = true := by
      simp [State.Flush, State.Write, State.emit, ResponseWriter.commit, hw]
    obtain ⟨buf2, hb2, heq⟩ := ih (copy buf c) (respBody ++ c)
      (State.Flush ((st.emit .bodyRead).Write env c).1)
      (fun x hx => by
        rw [copy_length buf c hc1.2]
        exact hc x (List.mem_cons_of_mem _ hx)) hw2
    refine ⟨buf2, by rw [hb2, copy_length buf c hc1.2], ?_⟩
    rw [hstep, heq, afterChunks_cons env st c t hw]
    simp

/-- An authorized run whose outbound call returns the response `resp` goes
through the response stage. -/
theorem handleRequest_responds (env : Env) (r : Request) (p : ProxyHandler) (resp : Response)
    (ha : Authorized env r p) (hnew : env.newRequest r.Method (targetURL r) = none)
    (hdo : env.clientDo (buildClient env) (buildProxyReq p r (targetURL r)) = .ok resp) :
    handleRequest env r = respond env resp (State.atResponse env p r) := by
  rw [handleRequest_authorized env r p ha]
  unfold forward
  unfold targetURL at hnew hdo
  simp only [hnew, hdo]
  rfl

/-- The response stage over a body that starts with chunks read without error:
the loop reaches what follows them with all of them written and flushed. -/
theorem respond_chunks (env : Env) (r : Request) (p : ProxyHandler) (resp : Response)
    (chunks : List GoString) (rest : List ReadResult)
    (hcode : AcceptedCode resp.StatusCode) (hfinal : resp.Final)
    (hbody : resp.Body = chunks.map ReadResult.ok ++ rest)
    (hchunks : ∀ c ∈ chunks, c ≠ [] ∧ c.length ≤ 1024)
    (hwr : ∀ i, env.writeErr i = none) :
    ∃ buf2 : GoString, respond env resp (State.atResponse env p r)
      = (stream env rest buf2 chunks.flatten
          ((State.atStream env p r resp).afterChunks chunks)).emit .bodyClose := by
  obtain ⟨buf2, _, heq⟩ := stream_chunks env hwr rest chunks
    (List.replicate 1024 (Char.ofNat 0)) [] (State.atStream env p r resp)
    (fun c hc => by rw [List.length_replicate]; exact hchunks c hc) rfl
  refine ⟨buf2, ?_⟩
  have hstart : State.WriteHeader
      { State.atResponse env p r with
        w := { (State.atResponse env p r).w with
          header := Header.copyInto resp.Header (State.atResponse env p r).w.header } }
      resp.StatusCode = State.atStream env p r resp := by
    rw [WriteHeader_commits _ _ rfl hcode hfinal]
    rfl
  unfold respond
  simp only [hstart, hbody]
  rw [List.nil_append] at heq
  rw [← heq]
  rfl

/-- C5, the code at the failing input: the path "/releases/v1/chat" has no
"release" segment, and removing whole segments leaves it as it is, yet the
handler cuts the marker out of the segment "releases" and forwards to
"https://api.chatai.beautys/v1/chat"; likewise "/v1/testing" loses "/test". -/
theorem Normalize_cuts_inside_segment :
    Normalize "/releases/v1/chat".toList = "s/v1/chat".toList ∧
    NormalizeBySegments "/releases/v1/chat".toList = "/releases/v1/chat".toList ∧
    Normalize "/v1/testing".toList = "/v1ing".toList ∧
    NormalizeBySegments "/v1/testing".toList = "/v1/testing".toList ∧
    (outbound (handleRequest (sampleEnv sampleResponse)
        { sampleRequest with URL := { Path := "/releases/v1/chat".toList, RawQuery := [] } })).map
      ProxyRequest.URL = ["https://api.chatai.beautys/v1/chat".toList] := by
  refine ⟨by decide, by decide, by decide, by decide, by decide⟩

/-- C8, as the claim states it, fails: after the chunk "ab" was written and
flushed, a read that returns "cd" with the error "unexpected EOF" leaves the
status at 202 but makes the handler call http.Error, whose text and newline
are appended to the body. -/
theorem read_fault_appends_error_text :
    (handleRequest (sampleEnv faultyResponse) sampleRequest).w.status = 202 ∧
    (handleRequest (sampleEnv faultyResponse) sampleRequest).trace.drop 3
      = [.bodyRead, .write "ab".toList, .flush, .bodyRead, .writeHeader 500,
         .write "unexpected EOF\n".toList, .bodyClose] ∧
    (handleRequest (sampleEnv faultyResponse) sampleRequest).w.body
      = "abunexpected EOF\n".toList ∧
    (handleRequest (sampleEnv faultyResponse) sampleRequest).w.body ≠ "ab".toList := by
  refine ⟨by decide, by decide, by decide, by decide⟩

/-- C8, amended: for every upstream response whose body read fails with an
error other than end-of-stream after chunks were written and flushed (so its
status is one that `WriteHeader` accepted, 100 to 999, and a final one, as
`client.Do` only returns such), when every write succeeds, the handler does
not panic and the status seen by the caller remains the upstream status; the
body is exactly the chunks forwarded before the fault when the failing read
returned no bytes, and those chunks followed by the error text and a newline
when it returned bytes with the error. -/
theorem read_fault_after_chunks (env : Env) (r : Request) (p : ProxyHandler) (resp : Response)
    (chunks : List GoString) (d msg : GoString) (rest : List ReadResult)
    (ha : Authorized env r p) (hnew : env.newRequest r.Method (targetURL r) = none)
    (hdo : env.clientDo (buildClient env) (buildProxyReq p r (targetURL r)) = .ok resp)
    (hcode : AcceptedCode resp.StatusCode) (hfin : resp.Final)
    (hbody : resp.Body
      = chunks.map ReadResult.ok ++ { data := d, err := some (.other msg) } :: rest)
    (hchunks : ∀ c ∈ chunks, c ≠ [] ∧ c.length ≤ 1024)
    (hwr : ∀ i, env.writeErr i = none) :
    (handleRequest env r).panicked = false ∧
    (handleRequest env r).w.status = resp.StatusCode ∧
    (handleRequest env r).w.body
      = chunks.flatten ++ (if d = [] then [] else msg ++ "\n".toList) := by
  obtain ⟨buf2, heq⟩ := respond_chunks env r p resp chunks _ hcode hfin hbody hchunks hwr
  rw [handleRequest_responds env r p resp ha hnew hdo, heq]
  by_cases hd : d = []
  · have hfinal : stream env ({ data := d, err := some (.other msg) } :: rest) buf2
        chunks.flatten ((State.atStream env p r resp).afterChunks chunks)
        = ((((State.atStream env p r resp).afterChunks chunks).emit .bodyRead).log
            [chunks.flatten]) := by
      unfold stream
      simp [hd]
    rw [hfinal, if_pos hd]
    refine ⟨rfl, rfl, ?_⟩
    show ([] : GoString) ++ chunks.flatten = chunks.flatten ++ []
    simp
  · have hlen : d.length ≠ 0 := fun h => hd (List.length_eq_zero.1 h)
    have hfinal : stream env ({ data := d, err := some (.other msg) } :: rest) buf2
        chunks.flatten ((State.atStream env p r resp).afterChunks chunks)
        = State.Error env
            ((((State.atStream env p r resp).afterChunks chunks).emit .bodyRead).log
              ["error while reading respbody: ".toList, msg]) msg 500 := by
      conv => lhs; unfold stream
      simp only [Option.some.injEq, reduceCtorEq, hlen, or_self, if_false, ReadError.Error]
    rw [hfinal, if_neg hd]
    refine ⟨rfl, rfl, ?_⟩
    show ([] : GoString) ++ chunks.flatten ++ (msg ++ ['\n'])
      = chunks.flatten ++ (msg ++ "\n".toList)
    rfl

/-- The amended eighth claim at work on the faulty sample upstream. -/
theorem read_fault_after_chunks_witness :
    (handleRequest (sampleEnv faultyResponse) sampleRequest).panicked = false ∧
    (handleRequest (sampleEnv faultyResponse) sampleRequest).w.status = 202 ∧
    (handleRequest (sampleEnv faultyResponse) sampleRequest).w.body
      = ["ab".toList].flatten
        ++ (if "cd".toList = [] then [] else "unexpected EOF".toList ++ "\n".toList) :=
  read_fault_after_chunks (sampleEnv faultyResponse) sampleRequest sampleHandler faultyResponse
    ["ab".toList] "cd".toList "unexpected EOF".toList []
    ⟨⟨rfl, rfl⟩, by decide, by decide⟩ rfl rfl (by decide) (by decide) rfl (by decide)
    (fun _ => rfl)

/-- C9, the code at the failing input: the upstream body is "abcd", delivered
as a read of "ab" and a final read that returns "cd" together with io.EOF;
the handler writes "ab" only, the bytes of the final read are dropped. -/
theorem final_read_with_EOF_is_dropped :
    (eofWithDataResponse.Body.map ReadResult.data).flatten = "abcd".toList ∧
    (handleRequest (sampleEnv eofWithDataResponse) sampleRequest).w.body = "ab".toList ∧
    (handleRequest (sampleEnv eofWithDataResponse) sampleRequest).trace.drop 3
      = [.bodyRead, .write "ab".toList, .flush, .bodyRead, .bodyClose] := by
  refine ⟨by decide, by decide, by decide⟩

end OpenAIProxy
